import Mathlib

/-!
Verification development for the execution core of `mysql-fabric`
(`src/lib/mysql/fabric/executor.py`).

The Python classes `Procedure`, `Job`, `ExecutorQueue`, `ExecutorThread` and
`Executor` are shallowly embedded below.  Mutation is modelled by explicit
state passing; Python `assert` failures and raised errors are modelled with
`Option` / `Except`; the calls a job makes into its collaborators
(persister, checkpoint store, scheduler, worker queue) are recorded as an
ordered event trace, since those collaborators are external to the module
(spec section 1, "external collaborators, referenced only by interface").
Python 2 `set` objects are modelled by their contents in first-insertion
order together with an arbitrary iteration-order permutation wherever the
code iterates over a set (`list(jobs)`, `for procedure in procedures`),
because Python 2 sets do not guarantee any iteration order.
-/

namespace Fabric

/-- Python values, as far as job results and arguments need them.
`PyVal.none` is Python `None`; a job's `result` starts out as `None` and the
procedure's aggregated result starts out as `True`
(`executor.py` line 44: `self.__result = True`). -/
inductive PyVal where
  | none
  | bool (b : Bool)
  | int (n : Int)
  | str (s : String)
deriving DecidableEq, Repr

/-- `Job.ERROR, Job.SUCCESS = range(1, 3)` (`executor.py` line 170). -/
inductive EventOutcome where
  | error
  | success
deriving DecidableEq, Repr

/-- `Job.ENQUEUED, Job.PROCESSING, Job.COMPLETE = range(3, 6)`
(`executor.py` line 177). -/
inductive EventState where
  | enqueued
  | processing
  | complete
deriving DecidableEq, Repr

/-- One status record as built by `Job._add_status` (`executor.py`
lines 280-293).  The `when` timestamp is not modelled: no claim mentions it
and wall-clock time has no shallow embedding. -/
structure Status where
  state : EventState
  success : EventOutcome
  description : String
  diagnosis : String
deriving DecidableEq, Repr

/-- The part of a `Job` that `Procedure.add_scheduled_job` and
`Procedure.add_executed_job` read: its uuid (jobs compare and hash by uuid,
`executor.py` lines 374-382), its `result` and its `status` list.  Uuids are
modelled as naturals. -/
structure JobRec where
  uuid : Nat
  result : PyVal
  status : List Status
deriving DecidableEq, Repr

/-- State of a `Procedure` (`executor.py` lines 37-47).  The Python
`set` `self.__scheduled_jobs` is modelled as a duplicate-free list (the code
only adds after an explicit membership assert, removes, and tests
emptiness, so only the contents matter). -/
structure Procedure where
  complete : Bool
  result : PyVal
  scheduledJobs : List JobRec
  executedJobs : List JobRec
  status : List Status
deriving DecidableEq, Repr

/-- A freshly constructed `Procedure` (`executor.py` lines 43-47). -/
def Procedure.init : Procedure :=
  { complete := false
    result := PyVal.bool true
    scheduledJobs := []
    executedJobs := []
    status := [] }

/-- Python membership test `job in collection` where jobs compare by uuid. -/
def memByUuid (j : JobRec) (l : List JobRec) : Bool :=
  l.any (fun k => k.uuid == j.uuid)

/-- The uuids of a list of jobs. -/
def uuids (l : List JobRec) : List Nat :=
  l.map JobRec.uuid

/-- `Procedure.add_scheduled_job` (`executor.py` lines 92-104).  The
Python asserts become `none`; the `job.procedure == self` assert is
implicit in this per-procedure model (every `JobRec` handed to a procedure
state belongs to it). -/
def add_scheduled_job (p : Procedure) (j : JobRec) : Option Procedure :=
  if p.complete then none
  else if memByUuid j p.scheduledJobs then none
  else if memByUuid j p.executedJobs then none
  else some { p with scheduledJobs := p.scheduledJobs ++ [j] }

/-- `Procedure.add_executed_job` (`executor.py` lines 106-131).  Returns
the updated procedure together with the list of checkpoint handles the call
removed from the checkpoint store: on completion the code calls
`Checkpoint.remove(job.checkpoint)` for the job just executed — and only
for that job. -/
def add_executed_job (p : Procedure) (j : JobRec) : Option (Procedure × List Nat) :=
  if p.complete then none
  else if ¬ memByUuid j p.scheduledJobs then none
  else if memByUuid j p.executedJobs then none
  else
    let sched := p.scheduledJobs.eraseP (fun k => k.uuid == j.uuid)
    some ({ complete := sched.isEmpty
            result := if j.result == PyVal.none then p.result else j.result
            scheduledJobs := sched
            executedJobs := p.executedJobs ++ [j]
            status := p.status ++ j.status },
          if sched.isEmpty then [j.uuid] else [])

/-- An operation on the procedure state: scheduling a job or recording its
execution. -/
inductive ProcOp where
  | sched (j : JobRec)
  | exec (j : JobRec)
deriving DecidableEq, Repr

/-- Apply one operation, discarding the checkpoint-removal output. -/
def applyOp (p : Procedure) : ProcOp → Option Procedure
  | ProcOp.sched j => add_scheduled_job p j
  | ProcOp.exec j => (add_executed_job p j).map Prod.fst

/-- Run a sequence of operations; an assertion failure aborts the run. -/
def runOps : Procedure → List ProcOp → Option Procedure
  | p, [] => some p
  | p, op :: rest =>
    match applyOp p op with
    | none => none
    | some q => runOps q rest

/-- Scheduled and executed jobs never share a uuid. -/
def schedExecDisjoint (p : Procedure) : Prop :=
  ∀ a ∈ p.scheduledJobs, ∀ b ∈ p.executedJobs, a.uuid ≠ b.uuid

/-- Induction invariant for procedure states: distinct uuids on each side,
disjointness, and the completion characterisation. -/
def procStrongInv (p : Procedure) : Prop :=
  (uuids p.scheduledJobs).Nodup ∧
  (uuids p.executedJobs).Nodup ∧
  schedExecDisjoint p ∧
  (p.complete = true ↔ (p.scheduledJobs = [] ∧ p.executedJobs ≠ []))

/-- Schedule a list of jobs one after the other
(`Procedure.add_scheduled_job` is called from `Job.__init__`,
`executor.py` line 218). -/
def scheduleAll : Procedure → List JobRec → Option Procedure
  | p, [] => some p
  | p, j :: rest =>
    match add_scheduled_job p j with
    | none => none
    | some q => scheduleAll q rest

/-- Execute a list of jobs one after the other (each finished job is handed
to `Procedure.add_executed_job`, `executor.py` line 372). -/
def executeAll : Procedure → List JobRec → Option Procedure
  | p, [] => some p
  | p, j :: rest =>
    match (add_executed_job p j).map Prod.fst with
    | none => none
    | some q => executeAll q rest

/-- A full procedure run: all jobs scheduled, then executed in order. -/
def runProcedure (jobs : List JobRec) : Option Procedure :=
  match scheduleAll Procedure.init jobs with
  | none => none
  | some p => executeAll p jobs

/-- The fold `add_executed_job` performs on the procedure result
(`executor.py` lines 121-122: `if job.result is not None: self.__result =
job.result`). -/
def foldResult (r0 : PyVal) (jobs : List JobRec) : PyVal :=
  jobs.foldl (fun r j => if j.result == PyVal.none then r else j.result) r0

/-- The result of the last executed job whose own result was non-null, or
`True` when every job returned null. -/
def lastNonNullResult (jobs : List JobRec) : PyVal :=
  match jobs.reverse.find? (fun j => !(j.result == PyVal.none)) with
  | some j => j.result
  | none => PyVal.bool true

/-- Whether a job's final status record reports ERROR. -/
def jobEndedInError (j : JobRec) : Bool :=
  match j.status.getLast? with
  | some st => st.success == EventOutcome.error
  | none => false

/-! ### The `Job.execute` model

`Job.execute` (`executor.py` lines 301-372) drives the persister, the
checkpoint store, the scheduler and the worker's queue.  Those collaborators
live outside this module, so the calls are recorded as an ordered event
trace. -/

/-- A job spawned during the action (`Executor.enqueue_procedures` with
`within_procedure` giving `thread.current_job.append_jobs(jobs)`,
`executor.py` lines 664-666): the worker only reads its uuid and its
procedure's uuid in the partition loop of `Job.execute`. -/
structure SpawnedJob where
  uuid : Nat
  procUuid : Nat
deriving DecidableEq, Repr

/-- The inputs `Job.execute` reads from `self`. -/
structure JobSpec where
  uuid : Nat
  procUuid : Nat
  actionName : String
  isRecoverable : Bool
  args : List PyVal
  kwargs : List (String × PyVal)
  spawned : List SpawnedJob
deriving DecidableEq, Repr

/-- Outcome of invoking the action body. -/
inductive ActionOutcome where
  | ok (v : PyVal)
  | raises
deriving DecidableEq, Repr

/-- Which call inside the `try` block of the success branch of
`Job.execute` (lines 336-359) raises `DatabaseError`, if any. -/
inductive PersistFailure where
  | noFailure
  | atRegister
  | atFinish
  | atCommit
deriving DecidableEq, Repr

/-- Observable steps of `Job.execute` and `Procedure.add_executed_job`. -/
inductive ExecEvent where
  | statusAdd (st : Status)
  | ckptBegin (job : Nat)
  | persisterBegin
  | actionCall (args : List PyVal) (kwargs : List (String × PyVal))
  | persisterRollback
  | logDbError
  | ckptRegister (jobs : List Nat) (scheduled : Bool)
  | ckptFinish (job : Nat)
  | persisterCommit
  | schedulerEnqueue (procUuid : Nat)
  | queueSchedule (jobs : List Nat)
  | ckptRemove (job : Nat)
  | markComplete
  | addExecutedJob (job : Nat)
deriving DecidableEq, Repr

/-- What `Job.execute` leaves behind: its call trace, the status records it
appended, the job's `result` and its `complete` flag. -/
structure ExecResult where
  events : List ExecEvent
  status : List Status
  result : PyVal
  complete : Bool
deriving DecidableEq, Repr

/-- The `(SUCCESS, ENQUEUED, description)` record `Job.__init__` emits
(`executor.py` line 217). -/
def enqueuedStatus (description : String) : Status :=
  { state := EventState.enqueued
    success := EventOutcome.success
    description := description
    diagnosis := "" }

/-- The `(SUCCESS, PROCESSING)` record (`executor.py` lines 306-307). -/
def processingStatus (name : String) : Status :=
  { state := EventState.processing
    success := EventOutcome.success
    description := "Executing action (" ++ name ++ ")."
    diagnosis := "" }

/-- The `(ERROR, COMPLETE, ..., diagnosis=True)` record (`executor.py`
lines 330-333); `diagnosis` carries `traceback.format_exc()`, supplied here
as `tb`. -/
def errorStatus (name tb : String) : Status :=
  { state := EventState.complete
    success := EventOutcome.error
    description := "Tried to execute action (" ++ name ++ ")."
    diagnosis := tb }

/-- The `(SUCCESS, COMPLETE)` record (`executor.py` lines 364-365). -/
def successStatus (name : String) : Status :=
  { state := EventState.complete
    success := EventOutcome.success
    description := "Executed action (" ++ name ++ ")."
    diagnosis := "" }

/-- Contents of a Python `set` built by successive `add` calls, in first
insertion order.  A real Python 2 set has no guaranteed iteration order, so
wherever the code iterates over a set an arbitrary permutation parameter is
applied to this canonical list. -/
def setContents (l : List Nat) : List Nat :=
  l.foldl (fun acc x => if x ∈ acc then acc else acc ++ [x]) []

/-- The partition loop of `Job.execute` (`executor.py` lines 350-356):
`procedures` collects the procedure of every spawned job with a different
procedure, `jobs` collects the spawned jobs of the executing job's own
procedure.  Both are Python sets. -/
def partitionSpawned (spec : JobSpec) : List Nat × List Nat :=
  (setContents ((spec.spawned.filter
      (fun j => !(j.procUuid == spec.procUuid))).map SpawnedJob.procUuid),
   setContents ((spec.spawned.filter
      (fun j => j.procUuid == spec.procUuid)).map SpawnedJob.uuid))

/-- The `try` block of the success branch (`executor.py` lines 336-359):
`Checkpoint.register(self.__jobs, True)`, then `checkpoint.finish()` when
recoverable, then `persister.commit()`, then the spawned-work handoff
(`scheduler.enqueue_procedure` per foreign procedure and one atomic
`queue.schedule(list(jobs))`).  A `DatabaseError` in one of the persistence
calls aborts the rest of the block and is logged (`except` clause at
line 360).  `permP` and `permJ` are the iteration orders of the two sets. -/
def tryBlockEvents (spec : JobSpec) (fail : PersistFailure)
    (permP permJ : List Nat → List Nat) : List ExecEvent :=
  ExecEvent.ckptRegister (spec.spawned.map SpawnedJob.uuid) true ::
  (if fail = PersistFailure.atRegister then [ExecEvent.logDbError] else
    (if spec.isRecoverable then [ExecEvent.ckptFinish spec.uuid] else []) ++
    (if fail = PersistFailure.atFinish then [ExecEvent.logDbError] else
      ExecEvent.persisterCommit ::
      (if fail = PersistFailure.atCommit then [ExecEvent.logDbError] else
        (permP (partitionSpawned spec).1).map ExecEvent.schedulerEnqueue ++
        [ExecEvent.queueSchedule (permJ (partitionSpawned spec).2)])))

/-- `Job.execute` (`executor.py` lines 301-372).  `outcome` is what the
action body does; `rollbackFails` says whether `persister.rollback()` in the
exception handler raises `DatabaseError` (which is caught and logged,
lines 323-327); `fail` locates a `DatabaseError` in the success-branch
`try` block; `tb` is the `traceback.format_exc()` text. -/
def executeJob (spec : JobSpec) (outcome : ActionOutcome) (rollbackFails : Bool)
    (fail : PersistFailure) (permP permJ : List Nat → List Nat)
    (tb : String) : ExecResult :=
  let evPre :=
    ExecEvent.statusAdd (processingStatus spec.actionName) ::
    (if spec.isRecoverable then [ExecEvent.ckptBegin spec.uuid] else []) ++
    [ExecEvent.persisterBegin, ExecEvent.actionCall spec.args spec.kwargs]
  match outcome with
  | ActionOutcome.raises =>
    let st := errorStatus spec.actionName tb
    { events := evPre ++
        (ExecEvent.persisterRollback ::
          (if rollbackFails then [ExecEvent.logDbError] else [])) ++
        [ExecEvent.statusAdd st, ExecEvent.markComplete,
         ExecEvent.addExecutedJob spec.uuid]
      status := [processingStatus spec.actionName, st]
      result := PyVal.bool false
      complete := true }
  | ActionOutcome.ok v =>
    let st := successStatus spec.actionName
    { events := evPre ++ tryBlockEvents spec fail permP permJ ++
        [ExecEvent.statusAdd st, ExecEvent.markComplete,
         ExecEvent.addExecutedJob spec.uuid]
      status := [processingStatus spec.actionName, st]
      result := v
      complete := true }

/-- The commit steps named by the spec's commit-ordering rule. -/
def isCommitStep : ExecEvent → Bool
  | ExecEvent.ckptRegister _ _ => true
  | ExecEvent.ckptFinish _ => true
  | ExecEvent.persisterCommit => true
  | _ => false

/-- The batches handed to the worker queue, in trace order. -/
def queueBatches (evs : List ExecEvent) : List (List Nat) :=
  evs.filterMap (fun e =>
    match e with
    | ExecEvent.queueSchedule l => some l
    | _ => none)

/-- Same-procedure spawned jobs of a job, in the order they were supplied
through `append_jobs` (`self.__jobs`, `executor.py` line 278). -/
def sameProcSpawn (spec : JobSpec) : List Nat :=
  (spec.spawned.filter (fun j => j.procUuid == spec.procUuid)).map SpawnedJob.uuid

/-! ### Procedure-level runs for the checkpoint claims -/

/-- One job of a procedure run: its uuid, recoverability, action outcome and
persistence failure point. -/
structure JobRun where
  uuid : Nat
  recoverable : Bool
  outcome : ActionOutcome
  fail : PersistFailure
deriving DecidableEq, Repr

/-- The `JobSpec` of a run belonging to procedure `procUuid`; the fields
irrelevant to checkpointing are fixed. -/
def specOfRun (procUuid : Nat) (r : JobRun) : JobSpec :=
  { uuid := r.uuid
    procUuid := procUuid
    actionName := "action"
    isRecoverable := r.recoverable
    args := []
    kwargs := []
    spawned := [] }

/-- Run `Job.execute` for one `JobRun` (identity iteration orders: the job
spawns nothing). -/
def execOfRun (procUuid : Nat) (r : JobRun) : ExecResult :=
  executeJob (specOfRun procUuid r) r.outcome false r.fail id id "traceback"

/-- The `JobRec` the procedure sees for a run: uuid, final result, and the
full status list (the ENQUEUED record from `Job.__init__` followed by the
records `execute` appends). -/
def recOfRun (procUuid : Nat) (r : JobRun) : JobRec :=
  { uuid := r.uuid
    result := (execOfRun procUuid r).result
    status := enqueuedStatus "description" :: (execOfRun procUuid r).status }

/-- Execute the runs of a procedure in order: each run's `execute` trace,
then its `add_executed_job` (whose checkpoint removals become `ckptRemove`
events). -/
def procRunAux (procUuid : Nat) : Procedure → List JobRun →
    Option (Procedure × List ExecEvent)
  | p, [] => some (p, [])
  | p, r :: rest =>
    match add_executed_job p (recOfRun procUuid r) with
    | none => none
    | some (p', removed) =>
      match procRunAux procUuid p' rest with
      | none => none
      | some (pF, evs) =>
        some (pF, (execOfRun procUuid r).events ++
          removed.map ExecEvent.ckptRemove ++ evs)

/-- A whole procedure: schedule every run's job, then execute them in
order. -/
def procRun (procUuid : Nat) (runs : List JobRun) :
    Option (Procedure × List ExecEvent) :=
  match scheduleAll Procedure.init (runs.map (recOfRun procUuid)) with
  | none => none
  | some p => procRunAux procUuid p runs

/-- `checkpoint.begin()` calls for job `u` in a trace. -/
def beginCount (tr : List ExecEvent) (u : Nat) : Nat :=
  tr.countP (fun e =>
    match e with
    | ExecEvent.ckptBegin v => v == u
    | _ => false)

/-- `checkpoint.finish()` calls for job `u` in a trace. -/
def finishCount (tr : List ExecEvent) (u : Nat) : Nat :=
  tr.countP (fun e =>
    match e with
    | ExecEvent.ckptFinish v => v == u
    | _ => false)

/-- `Checkpoint.remove` calls for job `u` in a trace. -/
def removeCount (tr : List ExecEvent) (u : Nat) : Nat :=
  tr.countP (fun e =>
    match e with
    | ExecEvent.ckptRemove v => v == u
    | _ => false)

/-- Whether the run reaches `checkpoint.finish()`: the action returned and
`Checkpoint.register` did not raise. -/
def finishes (r : JobRun) : Bool :=
  (match r.outcome with
   | ActionOutcome.ok _ => true
   | ActionOutcome.raises => false) &&
  !(r.fail == PersistFailure.atRegister)

/-- Whether the run's `persister.commit()` succeeded. -/
def committed (r : JobRun) : Bool :=
  (match r.outcome with
   | ActionOutcome.ok _ => true
   | ActionOutcome.raises => false) &&
  (r.fail == PersistFailure.noFailure)

/-! ### The worker drain loop

`ExecutorThread.run` (`executor.py` lines 429-467) advances to the next
procedure only when the current one `is_complete()`, and otherwise pops the
next job from the private queue; an executing job appends its
same-procedure spawned batch to that queue.  `drain` models the worker
staying on one procedure until its queue is empty, with `fuel` bounding the
number of executed jobs. -/

/-- What the drain model needs to know about a job: which same-procedure
jobs its action spawns (in `append_jobs` order). -/
structure DrainJob where
  uuid : Nat
  spawn : List Nat
deriving DecidableEq, Repr

/-- Look a job up by uuid; unknown jobs spawn nothing. -/
def spawnOf (env : List DrainJob) (u : Nat) : List Nat :=
  match env.find? (fun d => d.uuid == u) with
  | some d => d.spawn
  | none => []

/-- Drain the worker's private queue: pop the head job, execute it (its
same-procedure spawned batch, deduplicated by the Python set and iterated
in order `permJ`, is appended atomically by `queue.schedule`), repeat until
the queue is empty.  Returns the execution order. -/
def drain (env : List DrainJob) (permJ : List Nat → List Nat) :
    Nat → List Nat → List Nat → Option (List Nat)
  | _, [], executed => some executed.reverse
  | 0, _ :: _, _ => none
  | fuel + 1, j :: rest, executed =>
    drain env permJ fuel (rest ++ permJ (setContents (spawnOf env j)))
      (j :: executed)

/-! ### The submission API -/

/-- The error kinds the submission API raises (`mysql.fabric.errors`). -/
inductive FabricError where
  | executorError (msg : String)
  | programmingError (msg : String)
deriving DecidableEq, Repr

/-- The `within_procedure` argument: a boolean or a procedure uuid
(`executor.py` lines 590-591 assert exactly these two types). -/
inductive WithinProcedure where
  | flag (b : Bool)
  | procUuid (u : Nat)
deriving DecidableEq, Repr

/-- `Executor.create_procedures` (`executor.py` lines 562-625), reduced to
the data that decides its behaviour: whether the worker thread is alive,
whether the caller runs on the worker thread, the current job's procedure
uuid, and a supply of fresh uuids.  Returns the uuids of the procedures. -/
def create_procedures (threadAlive isCurrentThread : Bool)
    (currentProcUuid : Nat) (fresh : Nat → Nat)
    (within : WithinProcedure) (nactions : Nat) :
    Except FabricError (List Nat) :=
  if ¬ threadAlive then
    Except.error (FabricError.executorError "Executor is not running.")
  else
    match within with
    | WithinProcedure.flag b =>
      if b then
        if ¬ isCurrentThread then
          Except.error (FabricError.programmingError
            "One can only create a job within the context of the current procedure from a job that belongs to this procedure.")
        else
          Except.ok (List.replicate nactions currentProcUuid)
      else
        Except.ok ((List.range nactions).map fresh)
    | WithinProcedure.procUuid u =>
      if isCurrentThread then
        Except.error (FabricError.programmingError
          "One can only create a job within the context of an specific procedure while recovering.")
      else
        Except.ok (List.replicate nactions u)

/-- `Executor.wait_for_procedure` (`executor.py` lines 712-729), reduced to
its error behaviour; on success it blocks in `procedure.wait()`. -/
def wait_for_procedure (threadAlive isCurrentThread : Bool) :
    Except FabricError Unit :=
  if ¬ threadAlive then
    Except.error (FabricError.executorError "Executor is not running.")
  else if isCurrentThread then
    Except.error (FabricError.programmingError
      "One cannot wait for the execution of a procedure from a job.")
  else
    Except.ok ()

/-! ### Aliasing model for `get_scheduled_jobs` -/

/-- A heap of list cells, for the aliasing claim about
`Procedure.get_scheduled_jobs`: Python names are references, so
`list(self.__scheduled_jobs)` allocates a fresh list object.  Cells hold
job uuids; addresses are indices. -/
structure Heap where
  cells : List (List Nat)
deriving DecidableEq, Repr

/-- Read the list object at an address. -/
def Heap.read (h : Heap) (a : Nat) : List Nat :=
  h.cells.getD a []

/-- Mutate the list object at an address in place. -/
def Heap.write (h : Heap) (a : Nat) (v : List Nat) : Heap :=
  { cells := h.cells.set a v }

/-- Allocate a new list object; returns the new heap and the address. -/
def Heap.alloc (h : Heap) (v : List Nat) : Heap × Nat :=
  ({ cells := h.cells ++ [v] }, h.cells.length)

/-- A procedure as a holder of a reference to its scheduled-jobs set. -/
structure ProcedureRef where
  scheduledAddr : Nat
deriving DecidableEq, Repr

/-- `Procedure.get_scheduled_jobs` (`executor.py` lines 82-90): under the
procedure's lock it evaluates `list(self.__scheduled_jobs)`, i.e. allocates
a fresh list holding the set's current contents, and returns it. -/
def get_scheduled_jobs (h : Heap) (p : ProcedureRef) : Heap × Nat :=
  Heap.alloc h (Heap.read h p.scheduledAddr)

/-! ### Executor lifecycle -/

/-- The worker thread as the lifecycle code sees it. -/
structure ThreadRef where
  alive : Bool
deriving DecidableEq, Repr

/-- `Executor.__init__` keeps `self.__thread`, `None` before `start()`
(`executor.py` line 525). -/
structure ExecutorState where
  thread : Option ThreadRef
deriving DecidableEq, Repr

/-- What `Executor.shutdown` (`executor.py` lines 545-558) did: the state
it leaves, whether it enqueued the `None` sentinel, and whether it joined
the thread. -/
structure ShutdownOutcome where
  state : ExecutorState
  sentinelEnqueued : Bool
  joined : Bool
deriving DecidableEq, Repr

/-- `Executor.shutdown`: only an alive thread gets the sentinel and the
join; in every case `self.__thread` ends up `None`. -/
def shutdown (s : ExecutorState) : ShutdownOutcome :=
  match s.thread with
  | some t =>
    if t.alive then
      { state := { thread := none }, sentinelEnqueued := true, joined := true }
    else
      { state := { thread := none }, sentinelEnqueued := false, joined := false }
  | none =>
    { state := { thread := none }, sentinelEnqueued := false, joined := false }

/-- `Executor.start` (`executor.py` lines 533-543): creates the thread when
`self.__thread` is falsy, otherwise raises `ExecutorError`. -/
def start (s : ExecutorState) : Except FabricError ExecutorState :=
  match s.thread with
  | none => Except.ok { thread := some { alive := true } }
  | some _ =>
    Except.error (FabricError.executorError "Executor is already running.")

/-! ### Argument normalisation in `Job.__init__` -/

/-- Python `args or []` where `args` is `None` or a sequence
(`executor.py` line 203). -/
def pyOrArgs : Option (List PyVal) → List PyVal
  | none => []
  | some xs => if xs.isEmpty then [] else xs

/-- Python `kwargs or {}` where `kwargs` is `None` or a mapping
(`executor.py` line 204). -/
def pyOrKwargs : Option (List (String × PyVal)) → List (String × PyVal)
  | none => []
  | some xs => if xs.isEmpty then [] else xs

/-- The argument-relevant part of `Job.__init__` (`executor.py`
lines 185-218): normalises `args`/`kwargs` and records the rest. -/
def jobInit (uuid procUuid : Nat) (actionName : String) (isRecoverable : Bool)
    (args : Option (List PyVal)) (kwargs : Option (List (String × PyVal))) :
    JobSpec :=
  { uuid := uuid
    procUuid := procUuid
    actionName := actionName
    isRecoverable := isRecoverable
    args := pyOrArgs args
    kwargs := pyOrKwargs kwargs
    spawned := [] }

/-! ### Concrete inputs for counterexamples and witnesses -/

/-- A job of procedure 10 that spawns jobs 2 and 3 of its own procedure, in
that order. -/
def c2Spec : JobSpec :=
  { uuid := 1
    procUuid := 10
    actionName := "a"
    isRecoverable := true
    args := []
    kwargs := []
    spawned := [{ uuid := 2, procUuid := 10 }, { uuid := 3, procUuid := 10 }] }

/-- Two recoverable jobs of one procedure, both committing cleanly. -/
def c3Runs : List JobRun :=
  [{ uuid := 1, recoverable := true
     outcome := ActionOutcome.ok (PyVal.int 0), fail := PersistFailure.noFailure },
   { uuid := 2, recoverable := true
     outcome := ActionOutcome.ok (PyVal.int 0), fail := PersistFailure.noFailure }]

/-- A failing job followed by a successful one returning 42. -/
def c1Runs : List JobRun :=
  [{ uuid := 1, recoverable := true
     outcome := ActionOutcome.raises, fail := PersistFailure.noFailure },
   { uuid := 2, recoverable := true
     outcome := ActionOutcome.ok (PyVal.int 42), fail := PersistFailure.noFailure }]

/-- The procedure state and trace produced by `c3Runs`. -/
def c3Out : Procedure × List ExecEvent :=
  (procRun 10 c3Runs).getD (Procedure.init, [])

/-- A drain environment: job 1 spawns jobs 2 and 3; they spawn nothing. -/
def drainEnvEx : List DrainJob :=
  [{ uuid := 1, spawn := [2, 3] },
   { uuid := 2, spawn := [] },
   { uuid := 3, spawn := [] }]

/-- Two jobs, `7` then `None`, for the result-rule witness. -/
def c1JobsW : List JobRec :=
  [{ uuid := 1, result := PyVal.int 7, status := [] },
   { uuid := 2, result := PyVal.none, status := [] }]

/-- The completed procedure those jobs produce. -/
def c1ProcW : Procedure :=
  { complete := true
    result := PyVal.int 7
    scheduledJobs := []
    executedJobs := c1JobsW
    status := [] }

/-- A single job as the procedure sees it. -/
def jobWitness : JobRec :=
  { uuid := 1, result := PyVal.int 7, status := [] }

/-- Schedule then execute that single job. -/
def opsWitness : List ProcOp :=
  [ProcOp.sched jobWitness, ProcOp.exec jobWitness]

/-- The resulting procedure state. -/
def procWitness : Procedure :=
  { complete := true
    result := PyVal.int 7
    scheduledJobs := []
    executedJobs := [jobWitness]
    status := [] }

/-- `persister.rollback()` calls in a trace. -/
def rollbackCount (tr : List ExecEvent) : Nat :=
  tr.countP (fun e =>
    match e with
    | ExecEvent.persisterRollback => true
    | _ => false)

/-- `Checkpoint.register` calls in a trace. -/
def registerCount (tr : List ExecEvent) : Nat :=
  tr.countP (fun e =>
    match e with
    | ExecEvent.ckptRegister _ _ => true
    | _ => false)

/-- `scheduler.enqueue_procedure` calls in a trace. -/
def enqueueCount (tr : List ExecEvent) : Nat :=
  tr.countP (fun e =>
    match e with
    | ExecEvent.schedulerEnqueue _ => true
    | _ => false)

/-- `queue.schedule` calls in a trace. -/
def queueScheduleCount (tr : List ExecEvent) : Nat :=
  tr.countP (fun e =>
    match e with
    | ExecEvent.queueSchedule _ => true
    | _ => false)

/-- Logged `DatabaseError`s in a trace. -/
def dbErrorLogCount (tr : List ExecEvent) : Nat :=
  tr.countP (fun e =>
    match e with
    | ExecEvent.logDbError => true
    | _ => false)

/-- The action invocations recorded in a trace, with their arguments. -/
def actionCalls (tr : List ExecEvent) :
    List (List PyVal × List (String × PyVal)) :=
  tr.filterMap (fun e =>
    match e with
    | ExecEvent.actionCall a k => some (a, k)
    | _ => none)

/-- A recoverable job with no spawned jobs, for commit-order witnesses. -/
def c4Spec : JobSpec :=
  { uuid := 5
    procUuid := 20
    actionName := "b"
    isRecoverable := true
    args := []
    kwargs := []
    spawned := [] }

/-- A non-recoverable job, for the exception-path witness. -/
def c5Spec : JobSpec :=
  { uuid := 6
    procUuid := 21
    actionName := "c"
    isRecoverable := false
    args := [PyVal.int 3]
    kwargs := []
    spawned := [{ uuid := 7, procUuid := 21 }] }

/-! ### Theorems -/

theorem memByUuid_iff (j : JobRec) (l : List JobRec) :
    memByUuid j l = true ↔ j.uuid ∈ uuids l := by
  constructor
  · intro h
    rcases List.any_eq_true.mp h with ⟨k, hk, he⟩
    exact List.mem_map.mpr ⟨k, hk, beq_iff_eq.mp he⟩
  · intro h
    rcases List.mem_map.mp h with ⟨k, hk, he⟩
    exact List.any_eq_true.mpr ⟨k, hk, beq_iff_eq.mpr he⟩

theorem memByUuid_false_iff (j : JobRec) (l : List JobRec) :
    memByUuid j l = false ↔ j.uuid ∉ uuids l := by
  rw [← Bool.not_eq_true, not_iff_not]
  exact memByUuid_iff j l

theorem mem_eraseP_uuid (u : Nat) :
    ∀ (l : List JobRec), (uuids l).Nodup →
      ∀ a ∈ l.eraseP (fun k => k.uuid == u), a ∈ l ∧ (u ∈ uuids l → a.uuid ≠ u) := by
  intro l
  induction l with
  | nil => intro _ a ha; simp at ha
  | cons k rest ih =>
    intro hnd a ha
    simp only [uuids, List.map_cons, List.nodup_cons, List.mem_map] at hnd
    obtain ⟨hknotin, hnd'⟩ := hnd
    by_cases hk : k.uuid = u
    · have hkb : (k.uuid == u) = true := by simpa using hk
      simp only [List.eraseP_cons, hkb, cond_true] at ha
      refine ⟨List.mem_cons_of_mem _ ha, fun _ hau => ?_⟩
      exact hknotin ⟨a, ha, by rw [hau, hk]⟩
    · have hkb : (k.uuid == u) = false := by simpa using hk
      simp only [List.eraseP_cons, hkb, cond_false, List.mem_cons] at ha
      rcases ha with rfl | ha
      · exact ⟨List.mem_cons_self _ _, fun _ => hk⟩
      · rcases ih (by simpa [uuids] using hnd') a ha with ⟨hmem, hne⟩
        refine ⟨List.mem_cons_of_mem _ hmem, fun hu => ?_⟩
        have hu' : u ∈ uuids rest := by
          simp only [uuids, List.map_cons, List.mem_cons] at hu
          rcases hu with hu | hu
          · exact absurd hu.symm hk
          · exact hu
        exact hne hu'

theorem length_eraseP_of_memByUuid (j : JobRec) :
    ∀ (l : List JobRec), memByUuid j l = true →
      (l.eraseP (fun k => k.uuid == j.uuid)).length + 1 = l.length := by
  intro l
  induction l with
  | nil => intro h; simp [memByUuid] at h
  | cons k rest ih =>
    intro h
    by_cases hk : k.uuid = j.uuid
    · have hkb : (k.uuid == j.uuid) = true := by simpa using hk
      simp only [List.eraseP_cons, hkb, cond_true, List.length_cons]
    · have hkb : (k.uuid == j.uuid) = false := by simpa using hk
      simp only [List.eraseP_cons, hkb, cond_false]
      have h' : memByUuid j rest = true := by
        simp only [memByUuid, List.any_eq_true] at h ⊢
        rcases h with ⟨x, hx, he⟩
        rcases List.mem_cons.mp hx with rfl | hx
        · exact absurd (by simpa using he) hk
        · exact ⟨x, hx, he⟩
      simp only [List.length_cons]
      rw [← ih h']

theorem nodup_append_singleton_uuid {l : List JobRec} {j : JobRec}
    (hl : (uuids l).Nodup) (hj : j.uuid ∉ uuids l) :
    (uuids (l ++ [j])).Nodup := by
  rw [uuids, List.map_append]
  refine List.Nodup.append hl (by simp) ?_
  intro x hx hx2
  simp only [List.map_cons, List.map_nil, List.mem_singleton] at hx2
  subst hx2
  exact hj hx

theorem add_scheduled_job_inv {p q : Procedure} {j : JobRec}
    (hinv : procStrongInv p) (h : add_scheduled_job p j = some q) :
    procStrongInv q := by
  rcases hinv with ⟨hns, hne, hdisj, hcomp⟩
  unfold add_scheduled_job at h
  by_cases hc : p.complete = true
  · simp [hc] at h
  cases hms : memByUuid j p.scheduledJobs with
  | true => simp [hc, hms] at h
  | false =>
  cases hme : memByUuid j p.executedJobs with
  | true => simp [hc, hms, hme] at h
  | false =>
  simp only [hc, hms, hme, Bool.false_eq_true, if_false, Option.some.injEq] at h
  subst h
  have hjs : j.uuid ∉ uuids p.scheduledJobs := (memByUuid_false_iff j _).mp hms
  have hje : j.uuid ∉ uuids p.executedJobs := (memByUuid_false_iff j _).mp hme
  refine ⟨nodup_append_singleton_uuid hns hjs, hne, ?_, ?_⟩
  · intro a ha b hb
    simp only at ha hb
    rcases List.mem_append.mp ha with ha | ha
    · exact hdisj a ha b hb
    · rw [List.mem_singleton] at ha
      subst ha
      intro hab
      exact hje (hab ▸ List.mem_map_of_mem JobRec.uuid hb)
  · constructor
    · intro hcc
      simp at hcc
    · rintro ⟨hnil, -⟩
      exact absurd hnil (by simp)

theorem add_executed_job_inv {p q : Procedure} {j : JobRec} {ev : List Nat}
    (hinv : procStrongInv p) (h : add_executed_job p j = some (q, ev)) :
    procStrongInv q := by
  rcases hinv with ⟨hns, hne, hdisj, hcomp⟩
  unfold add_executed_job at h
  by_cases hc : p.complete = true
  · simp [hc] at h
  cases hms : memByUuid j p.scheduledJobs with
  | false => simp [hc, hms] at h
  | true =>
  cases hme : memByUuid j p.executedJobs with
  | true => simp [hc, hms, hme] at h
  | false =>
  simp only [hc, hms, hme, Bool.false_eq_true, Bool.true_eq_false, if_false, if_true,
    not_true_eq_false, not_false_eq_true, Option.some.injEq, Prod.mk.injEq] at h
  rcases h with ⟨hq, -⟩
  subst hq
  have hje : j.uuid ∉ uuids p.executedJobs := (memByUuid_false_iff j _).mp hme
  have hsub : (p.scheduledJobs.eraseP (fun k => k.uuid == j.uuid)).Sublist p.scheduledJobs :=
    List.eraseP_sublist _
  refine ⟨?_, nodup_append_singleton_uuid hne hje, ?_, ?_⟩
  · exact List.Nodup.sublist (hsub.map JobRec.uuid) hns
  · intro a ha b hb
    simp only at ha hb
    have hamem : a ∈ p.scheduledJobs := hsub.mem ha
    rcases List.mem_append.mp hb with hb | hb
    · exact hdisj a hamem b hb
    · rw [List.mem_singleton] at hb
      rw [hb]
      exact (mem_eraseP_uuid j.uuid p.scheduledJobs hns a ha).2
        ((memByUuid_iff j _).mp hms)
  · constructor
    · intro hcc
      exact ⟨List.isEmpty_iff.mp hcc, by simp⟩
    · rintro ⟨hnil, -⟩
      exact List.isEmpty_iff.mpr hnil

theorem applyOp_inv {p q : Procedure} {op : ProcOp}
    (hinv : procStrongInv p) (h : applyOp p op = some q) :
    procStrongInv q := by
  cases op with
  | sched j => exact add_scheduled_job_inv hinv h
  | exec j =>
    simp only [applyOp, Option.map_eq_some'] at h
    rcases h with ⟨⟨q', ev⟩, hq', hfst⟩
    cases hfst
    exact add_executed_job_inv hinv hq'

theorem procStrongInv_init : procStrongInv Procedure.init := by
  refine ⟨by simp [uuids, Procedure.init], by simp [uuids, Procedure.init], ?_, ?_⟩
  · intro a ha
    simp [Procedure.init] at ha
  · simp [Procedure.init]

theorem applyOp_of_complete {p : Procedure} (hc : p.complete = true) (op : ProcOp) :
    applyOp p op = none := by
  cases op with
  | sched j => simp [applyOp, add_scheduled_job, hc]
  | exec j => simp [applyOp, add_executed_job, hc]

theorem runOps_inv :
    ∀ (ops : List ProcOp) (p q : Procedure),
      procStrongInv p → runOps p ops = some q → procStrongInv q := by
  intro ops
  induction ops with
  | nil =>
    intro p q hinv h
    simp [runOps] at h
    exact h ▸ hinv
  | cons op rest ih =>
    intro p q hinv h
    unfold runOps at h
    cases hap : applyOp p op with
    | none => rw [hap] at h; exact absurd h (by simp)
    | some r =>
      rw [hap] at h
      exact ih r q (applyOp_inv hinv hap) h

theorem add_scheduled_job_fields {p q : Procedure} {j : JobRec}
    (h : add_scheduled_job p j = some q) :
    q.result = p.result ∧ q.scheduledJobs = p.scheduledJobs ++ [j] ∧
    q.executedJobs = p.executedJobs ∧ q.complete = false ∧
    q.status = p.status ∧ p.complete = false := by
  unfold add_scheduled_job at h
  by_cases hc : p.complete = true
  · simp [hc] at h
  cases hms : memByUuid j p.scheduledJobs with
  | true => simp [hc, hms] at h
  | false =>
  cases hme : memByUuid j p.executedJobs with
  | true => simp [hc, hms, hme] at h
  | false =>
  simp only [hc, hms, hme, Bool.false_eq_true, if_false, Option.some.injEq] at h
  subst h
  exact ⟨rfl, rfl, rfl, rfl, rfl, by simpa [Bool.not_eq_true] using hc⟩

theorem add_executed_job_fields {p q : Procedure} {j : JobRec} {ev : List Nat}
    (h : add_executed_job p j = some (q, ev)) :
    q.result = (if j.result == PyVal.none then p.result else j.result) ∧
    q.scheduledJobs = p.scheduledJobs.eraseP (fun k => k.uuid == j.uuid) ∧
    q.executedJobs = p.executedJobs ++ [j] ∧
    q.complete = q.scheduledJobs.isEmpty ∧
    ev = (if q.scheduledJobs.isEmpty then [j.uuid] else []) ∧
    memByUuid j p.scheduledJobs = true := by
  unfold add_executed_job at h
  by_cases hc : p.complete = true
  · simp [hc] at h
  cases hms : memByUuid j p.scheduledJobs with
  | false => simp [hc, hms] at h
  | true =>
  cases hme : memByUuid j p.executedJobs with
  | true => simp [hc, hms, hme] at h
  | false =>
  simp only [hc, hms, hme, Bool.false_eq_true, Bool.true_eq_false, if_false, if_true,
    not_true_eq_false, not_false_eq_true, Option.some.injEq, Prod.mk.injEq] at h
  rcases h with ⟨hq, hev⟩
  subst hq
  exact ⟨rfl, rfl, rfl, rfl, hev.symm, rfl⟩

theorem scheduleAll_fields :
    ∀ (jobs : List JobRec) (p q : Procedure),
      scheduleAll p jobs = some q →
      q.result = p.result ∧ q.scheduledJobs = p.scheduledJobs ++ jobs ∧
      q.executedJobs = p.executedJobs ∧ q.complete = p.complete := by
  intro jobs
  induction jobs with
  | nil =>
    intro p q h
    simp only [scheduleAll] at h
    cases h
    exact ⟨rfl, by simp, rfl, rfl⟩
  | cons j rest ih =>
    intro p q h
    unfold scheduleAll at h
    cases hap : add_scheduled_job p j with
    | none => rw [hap] at h; exact absurd h (by simp)
    | some r =>
      rw [hap] at h
      rcases add_scheduled_job_fields hap with ⟨hres, hsch, hexe, hcom, -, hpc⟩
      rcases ih r q h with ⟨ihres, ihsch, ihexe, ihcom⟩
      refine ⟨ihres.trans hres, ?_, ihexe.trans hexe, ?_⟩
      · rw [ihsch, hsch, List.append_assoc]
        rfl
      · rw [ihcom, hcom, hpc]

theorem scheduleAll_inv :
    ∀ (jobs : List JobRec) (p q : Procedure),
      procStrongInv p → scheduleAll p jobs = some q → procStrongInv q := by
  intro jobs
  induction jobs with
  | nil =>
    intro p q hinv h
    simp only [scheduleAll] at h
    cases h
    exact hinv
  | cons j rest ih =>
    intro p q hinv h
    unfold scheduleAll at h
    cases hap : add_scheduled_job p j with
    | none => rw [hap] at h; exact absurd h (by simp)
    | some r =>
      rw [hap] at h
      exact ih r q (add_scheduled_job_inv hinv hap) h

theorem executeAll_inv :
    ∀ (jobs : List JobRec) (p q : Procedure),
      procStrongInv p → executeAll p jobs = some q → procStrongInv q := by
  intro jobs
  induction jobs with
  | nil =>
    intro p q hinv h
    simp only [executeAll] at h
    cases h
    exact hinv
  | cons j rest ih =>
    intro p q hinv h
    unfold executeAll at h
    cases hap : (add_executed_job p j).map Prod.fst with
    | none => rw [hap] at h; exact absurd h (by simp)
    | some r =>
      rw [hap] at h
      rcases Option.map_eq_some'.mp hap with ⟨⟨r', ev⟩, hre, hfst⟩
      cases hfst
      exact ih r' q (add_executed_job_inv hinv hre) h

theorem executeAll_fields :
    ∀ (jobs : List JobRec) (p q : Procedure),
      executeAll p jobs = some q →
      q.result = foldResult p.result jobs ∧
      q.executedJobs = p.executedJobs ++ jobs ∧
      q.scheduledJobs.length + jobs.length = p.scheduledJobs.length := by
  intro jobs
  induction jobs with
  | nil =>
    intro p q h
    simp only [executeAll] at h
    cases h
    exact ⟨by simp [foldResult], by simp, by simp⟩
  | cons j rest ih =>
    intro p q h
    unfold executeAll at h
    cases hap : (add_executed_job p j).map Prod.fst with
    | none => rw [hap] at h; exact absurd h (by simp)
    | some r =>
      rw [hap] at h
      rcases Option.map_eq_some'.mp hap with ⟨⟨r', ev⟩, hre, hfst⟩
      cases hfst
      rcases add_executed_job_fields hre with ⟨hres, hsch, hexe, -, -, hmem⟩
      rcases ih r' q h with ⟨ihres, ihexe, ihlen⟩
      refine ⟨?_, ?_, ?_⟩
      · rw [ihres, hres]
        simp [foldResult]
      · rw [ihexe, hexe, List.append_assoc]
        rfl
      · have := length_eraseP_of_memByUuid j p.scheduledJobs hmem
        rw [hsch] at ihlen
        simp only [List.length_cons]
        omega

theorem runProcedure_complete (jobs : List JobRec) (p : Procedure)
    (h : runProcedure jobs = some p) :
    p.result = foldResult (PyVal.bool true) jobs ∧
    (jobs ≠ [] → p.complete = true) := by
  unfold runProcedure at h
  cases hs : scheduleAll Procedure.init jobs with
  | none => rw [hs] at h; exact absurd h (by simp)
  | some p1 =>
    rw [hs] at h
    rcases scheduleAll_fields jobs Procedure.init p1 hs with ⟨hres1, hsch1, hexe1, hcom1⟩
    rcases executeAll_fields jobs p1 p h with ⟨hres, hexe, hlen⟩
    have hinv : procStrongInv p :=
      executeAll_inv jobs p1 p
        (scheduleAll_inv jobs Procedure.init p1 procStrongInv_init hs) h
    constructor
    · rw [hres, hres1]
      rfl
    · intro hne
      have hlen0 : p.scheduledJobs.length = 0 := by
        rw [hsch1] at hlen
        simp only [Procedure.init, List.nil_append] at hlen
        omega
      have hschnil : p.scheduledJobs = [] := List.length_eq_zero.mp hlen0
      have hexene : p.executedJobs ≠ [] := by
        rw [hexe, hexe1]
        simp [Procedure.init, hne]
      exact hinv.2.2.2.mpr ⟨hschnil, hexene⟩

theorem foldResult_eq_find :
    ∀ (jobs : List JobRec) (r0 : PyVal),
      foldResult r0 jobs =
        (match jobs.reverse.find? (fun j => !(j.result == PyVal.none)) with
         | some j => j.result
         | none => r0) := by
  intro jobs
  induction jobs using List.reverseRecOn with
  | nil => intro r0; simp [foldResult]
  | append_singleton xs x ih =>
    intro r0
    rw [foldResult, List.foldl_append]
    simp only [List.foldl_cons, List.foldl_nil]
    rw [← foldResult, List.reverse_append]
    simp only [List.reverse_cons, List.reverse_nil, List.nil_append,
      List.singleton_append, List.find?_cons]
    cases hx : (x.result == PyVal.none) with
    | true =>
      simp only [hx, Bool.not_true]
      rw [ih r0]
      simp
    | false =>
      simp only [hx, Bool.not_false]
      simp

/-- Claim C1 (corrected, provable part): once the procedure is complete,
`procedure.result` is the `result` of the last executed job whose own
result was non-null, `True` when every job returned null; when that last
non-null result belongs to a job that ended in ERROR (such a job's result
is `False`, see `executor.py` line 330), the procedure result is `False`.
The original claim's clause "false if any job ended in ERROR" is refuted by
`result_rule_error_clause_cex`. -/
theorem result_rule_amended (jobs : List JobRec) (p : Procedure)
    (h : runProcedure jobs = some p) (hne : jobs ≠ []) :
    p.complete = true ∧
    p.result = lastNonNullResult jobs ∧
    (∀ j : JobRec,
      jobs.reverse.find? (fun k => !(k.result == PyVal.none)) = some j →
      j.result = PyVal.bool false → p.result = PyVal.bool false) := by
  rcases runProcedure_complete jobs p h with ⟨hres, hcom⟩
  have hlast : p.result = lastNonNullResult jobs := by
    rw [hres, foldResult_eq_find]
    unfold lastNonNullResult
    cases jobs.reverse.find? (fun j => !(j.result == PyVal.none)) <;> rfl
  refine ⟨hcom hne, hlast, ?_⟩
  intro j hj hjr
  rw [hlast]
  unfold lastNonNullResult
  rw [hj, ← hjr]

/-- Witness for `result_rule_amended` at a two-job procedure returning
`7` then `None`. -/
theorem result_rule_amended_witness :
    runProcedure c1JobsW = some c1ProcW ∧ c1JobsW ≠ [] ∧
    c1ProcW.complete = true ∧ c1ProcW.result = lastNonNullResult c1JobsW :=
  ⟨by decide, by decide,
   (result_rule_amended c1JobsW c1ProcW (by decide) (by decide)).1,
   (result_rule_amended c1JobsW c1ProcW (by decide) (by decide)).2.1⟩

/-- Claim C1 counterexample: in a completed procedure whose first job ended
in ERROR (result `False`) and whose second job succeeded returning `42`,
`procedure.result` is `42`, not `false` — refuting "false if any job ended
in ERROR". -/
theorem result_rule_error_clause_cex :
    (procRun 10 c1Runs).map (fun pr => (pr.1.complete, pr.1.result)) =
      some (true, PyVal.int 42) ∧
    (procRun 10 c1Runs).map (fun pr => pr.1.executedJobs.map jobEndedInError) =
      some [true, false] ∧
    PyVal.int 42 ≠ PyVal.bool false :=
  ⟨by decide, by decide, by decide⟩

/-- Claim C6 (confirmed): every sequence of `add_scheduled_job` /
`add_executed_job` operations starting from a fresh procedure keeps the
invariant: `scheduled_jobs` and `executed_jobs` are disjoint, the procedure
is complete exactly when `scheduled_jobs` is empty and at least one job has
been executed, and once complete every further add fails (the Python
`assert(not self.__complete)`). -/
theorem procedure_lifecycle_invariant (ops : List ProcOp) (p : Procedure)
    (h : runOps Procedure.init ops = some p) :
    schedExecDisjoint p ∧
    (p.complete = true ↔ (p.scheduledJobs = [] ∧ p.executedJobs ≠ [])) ∧
    (p.complete = true → ∀ op, applyOp p op = none) := by
  have hinv := runOps_inv ops Procedure.init p procStrongInv_init h
  rcases hinv with ⟨-, -, hdisj, hcomp⟩
  exact ⟨hdisj, hcomp, fun hc op => applyOp_of_complete hc op⟩

/-- Witness for `procedure_lifecycle_invariant` at a one-job run. -/
theorem procedure_lifecycle_invariant_witness :
    runOps Procedure.init opsWitness = some procWitness ∧
    (schedExecDisjoint procWitness ∧
     (procWitness.complete = true ↔
       (procWitness.scheduledJobs = [] ∧ procWitness.executedJobs ≠ [])) ∧
     (procWitness.complete = true → ∀ op, applyOp procWitness op = none)) :=
  ⟨by decide, procedure_lifecycle_invariant opsWitness procWitness (by decide)⟩

theorem filter_isCommitStep_enqueues (l : List Nat) :
    (l.map ExecEvent.schedulerEnqueue).filter isCommitStep = [] := by
  induction l with
  | nil => rfl
  | cons x xs ih => simp [isCommitStep, ih]

/-- Claim C4 (confirmed): every successful job execution attempts the commit
steps in the order `Checkpoint.register(spawned jobs)`, then
`checkpoint.finish()` (only when the job is recoverable), then
`persister.commit()`; a `DatabaseError` in one of them skips the remaining
steps and is logged exactly once, and the `(SUCCESS, COMPLETE)` status is
still emitted. -/
theorem commit_step_order (spec : JobSpec) (v : PyVal) (rollbackFails : Bool)
    (fail : PersistFailure) (permP permJ : List Nat → List Nat) (tb : String)
    (hfin : fail = PersistFailure.atFinish → spec.isRecoverable = true) :
    (executeJob spec (ActionOutcome.ok v) rollbackFails fail permP permJ
        tb).events.filter isCommitStep =
      ExecEvent.ckptRegister (spec.spawned.map SpawnedJob.uuid) true ::
      (if fail = PersistFailure.atRegister then [] else
        (if spec.isRecoverable then [ExecEvent.ckptFinish spec.uuid] else []) ++
        (if fail = PersistFailure.atFinish then [] else
          [ExecEvent.persisterCommit])) ∧
    dbErrorLogCount (executeJob spec (ActionOutcome.ok v) rollbackFails fail
        permP permJ tb).events =
      (if fail = PersistFailure.noFailure then 0 else 1) ∧
    (executeJob spec (ActionOutcome.ok v) rollbackFails fail permP permJ
        tb).status.getLast? = some (successStatus spec.actionName) ∧
    (successStatus spec.actionName).success = EventOutcome.success ∧
    (successStatus spec.actionName).state = EventState.complete := by
  refine ⟨?_, ?_, ?_, rfl, rfl⟩
  · cases fail with
    | noFailure =>
      cases hrec : spec.isRecoverable <;>
        simp [executeJob, tryBlockEvents, isCommitStep, hrec,
          filter_isCommitStep_enqueues]
    | atRegister =>
      cases hrec : spec.isRecoverable <;>
        simp [executeJob, tryBlockEvents, isCommitStep, hrec]
    | atFinish =>
      have hrec := hfin rfl
      simp [executeJob, tryBlockEvents, isCommitStep, hrec]
    | atCommit =>
      cases hrec : spec.isRecoverable <;>
        simp [executeJob, tryBlockEvents, isCommitStep, hrec]
  · cases fail <;> cases hrec : spec.isRecoverable <;>
      simp [executeJob, tryBlockEvents, dbErrorLogCount, hrec,
        List.countP_append, List.countP_cons, List.countP_map]
  · cases hrec : spec.isRecoverable <;> simp [executeJob, hrec]

/-- Witness for `commit_step_order`: a recoverable job whose
`checkpoint.finish()` raises `DatabaseError`. -/
theorem commit_step_order_witness :
    (PersistFailure.atFinish = PersistFailure.atFinish →
      c4Spec.isRecoverable = true) ∧
    (executeJob c4Spec (ActionOutcome.ok (PyVal.int 1)) false
        PersistFailure.atFinish id id "t").events.filter isCommitStep =
      ExecEvent.ckptRegister (c4Spec.spawned.map SpawnedJob.uuid) true ::
      (if PersistFailure.atFinish = PersistFailure.atRegister then [] else
        (if c4Spec.isRecoverable then [ExecEvent.ckptFinish c4Spec.uuid] else []) ++
        (if PersistFailure.atFinish = PersistFailure.atFinish then [] else
          [ExecEvent.persisterCommit])) ∧
    (executeJob c4Spec (ActionOutcome.ok (PyVal.int 1)) false
        PersistFailure.atFinish id id "t").status.getLast? =
      some (successStatus c4Spec.actionName) :=
  ⟨by decide,
   (commit_step_order c4Spec (PyVal.int 1) false PersistFailure.atFinish id id
      "t" (by decide)).1,
   (commit_step_order c4Spec (PyVal.int 1) false PersistFailure.atFinish id id
      "t" (by decide)).2.2.1⟩

/-- Claim C5 (confirmed): when the action raises, `persister.rollback()` is
attempted exactly once (a `DatabaseError` from it is swallowed, leaving only
a log record), the job's result becomes `False`, an `(ERROR, COMPLETE)`
status with the non-empty traceback as diagnosis is appended last, no
spawned job is registered or scheduled (`Checkpoint.register`,
`scheduler.enqueue_procedure` and `queue.schedule` are never called), and
the job is still marked complete and handed to
`Procedure.add_executed_job`. -/
theorem exception_path_behavior (spec : JobSpec) (rollbackFails : Bool)
    (fail : PersistFailure) (permP permJ : List Nat → List Nat) (tb : String)
    (htb : tb ≠ "") :
    rollbackCount (executeJob spec ActionOutcome.raises rollbackFails fail
        permP permJ tb).events = 1 ∧
    (executeJob spec ActionOutcome.raises rollbackFails fail permP permJ
        tb).result = PyVal.bool false ∧
    (executeJob spec ActionOutcome.raises rollbackFails fail permP permJ
        tb).status.getLast? = some (errorStatus spec.actionName tb) ∧
    (errorStatus spec.actionName tb).success = EventOutcome.error ∧
    (errorStatus spec.actionName tb).state = EventState.complete ∧
    (errorStatus spec.actionName tb).diagnosis ≠ "" ∧
    registerCount (executeJob spec ActionOutcome.raises rollbackFails fail
        permP permJ tb).events = 0 ∧
    enqueueCount (executeJob spec ActionOutcome.raises rollbackFails fail
        permP permJ tb).events = 0 ∧
    queueScheduleCount (executeJob spec ActionOutcome.raises rollbackFails fail
        permP permJ tb).events = 0 ∧
    (executeJob spec ActionOutcome.raises rollbackFails fail permP permJ
        tb).complete = true ∧
    (∃ pre, (executeJob spec ActionOutcome.raises rollbackFails fail permP
        permJ tb).events =
      pre ++ [ExecEvent.statusAdd (errorStatus spec.actionName tb),
              ExecEvent.markComplete, ExecEvent.addExecutedJob spec.uuid]) := by
  refine ⟨?_, rfl, rfl, rfl, rfl, htb, ?_, ?_, ?_, rfl, ?_⟩
  · cases hrec : spec.isRecoverable <;> cases rollbackFails <;>
      simp [executeJob, rollbackCount, hrec, List.countP_append, List.countP_cons]
  · cases hrec : spec.isRecoverable <;> cases rollbackFails <;>
      simp [executeJob, registerCount, hrec, List.countP_append, List.countP_cons]
  · cases hrec : spec.isRecoverable <;> cases rollbackFails <;>
      simp [executeJob, enqueueCount, hrec, List.countP_append, List.countP_cons]
  · cases hrec : spec.isRecoverable <;> cases rollbackFails <;>
      simp [executeJob, queueScheduleCount, hrec, List.countP_append,
        List.countP_cons]
  · refine ⟨(ExecEvent.statusAdd (processingStatus spec.actionName) ::
      (if spec.isRecoverable then [ExecEvent.ckptBegin spec.uuid] else []) ++
      [ExecEvent.persisterBegin, ExecEvent.actionCall spec.args spec.kwargs]) ++
      (ExecEvent.persisterRollback ::
        (if rollbackFails then [ExecEvent.logDbError] else [])), ?_⟩
    simp [executeJob]

/-- Witness for `exception_path_behavior`: a failing non-recoverable job
whose rollback also fails. -/
theorem exception_path_behavior_witness :
    ("traceback text" : String) ≠ "" ∧
    rollbackCount (executeJob c5Spec ActionOutcome.raises true
        PersistFailure.noFailure id id "traceback text").events = 1 ∧
    (executeJob c5Spec ActionOutcome.raises true PersistFailure.noFailure id id
        "traceback text").result = PyVal.bool false ∧
    registerCount (executeJob c5Spec ActionOutcome.raises true
        PersistFailure.noFailure id id "traceback text").events = 0 :=
  ⟨by decide,
   (exception_path_behavior c5Spec true PersistFailure.noFailure id id
      "traceback text" (by decide)).1,
   (exception_path_behavior c5Spec true PersistFailure.noFailure id id
      "traceback text" (by decide)).2.1,
   (exception_path_behavior c5Spec true PersistFailure.noFailure id id
      "traceback text" (by decide)).2.2.2.2.2.2.1⟩

theorem actionCalls_enqueues (l : List Nat) :
    actionCalls (l.map ExecEvent.schedulerEnqueue) = [] := by
  induction l with
  | nil => rfl
  | cons x xs ih => simp only [List.map_cons, actionCalls, List.filterMap_cons] at ih ⊢; exact ih

theorem actionCalls_executeJob (spec : JobSpec) (outcome : ActionOutcome)
    (rollbackFails : Bool) (fail : PersistFailure)
    (permP permJ : List Nat → List Nat) (tb : String) :
    actionCalls (executeJob spec outcome rollbackFails fail permP permJ
      tb).events = [(spec.args, spec.kwargs)] := by
  cases outcome with
  | raises =>
    cases hrec : spec.isRecoverable <;> cases rollbackFails <;>
      simp [executeJob, actionCalls, hrec]
  | ok v =>
    cases fail <;> cases hrec : spec.isRecoverable <;>
      simp [executeJob, tryBlockEvents, actionCalls, hrec, actionCalls_enqueues,
        List.filterMap_append]

/-- Claim C10 (confirmed): a falsy `args` or `kwargs` (Python `None`, or an
empty sequence/mapping) is normalised by `Job.__init__` (`args or []`,
`kwargs or {}`) to an empty positional list and an empty keyword mapping,
so `execute` invokes the action with no arguments at all. -/
theorem falsy_args_normalization (uuid procUuid : Nat) (name : String)
    (recoverable : Bool) (args : Option (List PyVal))
    (kwargs : Option (List (String × PyVal)))
    (hargs : args = none ∨ args = some [])
    (hkw : kwargs = none ∨ kwargs = some [])
    (outcome : ActionOutcome) (rollbackFails : Bool) (fail : PersistFailure)
    (permP permJ : List Nat → List Nat) (tb : String) :
    (jobInit uuid procUuid name recoverable args kwargs).args = [] ∧
    (jobInit uuid procUuid name recoverable args kwargs).kwargs = [] ∧
    actionCalls (executeJob (jobInit uuid procUuid name recoverable args kwargs)
      outcome rollbackFails fail permP permJ tb).events = [([], [])] := by
  have ha : (jobInit uuid procUuid name recoverable args kwargs).args = [] := by
    rcases hargs with rfl | rfl <;> simp [jobInit, pyOrArgs]
  have hk : (jobInit uuid procUuid name recoverable args kwargs).kwargs = [] := by
    rcases hkw with rfl | rfl <;> simp [jobInit, pyOrKwargs]
  refine ⟨ha, hk, ?_⟩
  rw [actionCalls_executeJob, ha, hk]

/-- Witness for `falsy_args_normalization` at `args = None`,
`kwargs = {}`. -/
theorem falsy_args_normalization_witness :
    ((none : Option (List PyVal)) = none ∨ (none : Option (List PyVal)) = some []) ∧
    ((some [] : Option (List (String × PyVal))) = none ∨
      (some [] : Option (List (String × PyVal))) = some []) ∧
    (jobInit 8 22 "d" true none (some [])).args = [] ∧
    (jobInit 8 22 "d" true none (some [])).kwargs = [] ∧
    actionCalls (executeJob (jobInit 8 22 "d" true none (some []))
      (ActionOutcome.ok PyVal.none) false PersistFailure.noFailure id id
      "t").events = [([], [])] :=
  ⟨Or.inl rfl, Or.inr rfl,
   (falsy_args_normalization 8 22 "d" true none (some []) (Or.inl rfl)
      (Or.inr rfl) (ActionOutcome.ok PyVal.none) false PersistFailure.noFailure
      id id "t").1,
   (falsy_args_normalization 8 22 "d" true none (some []) (Or.inl rfl)
      (Or.inr rfl) (ActionOutcome.ok PyVal.none) false PersistFailure.noFailure
      id id "t").2.1,
   (falsy_args_normalization 8 22 "d" true none (some []) (Or.inl rfl)
      (Or.inr rfl) (ActionOutcome.ok PyVal.none) false PersistFailure.noFailure
      id id "t").2.2⟩

theorem mem_setContents_aux :
    ∀ (l acc : List Nat) (x : Nat),
      x ∈ l.foldl (fun acc y => if y ∈ acc then acc else acc ++ [y]) acc ↔
        x ∈ acc ∨ x ∈ l := by
  intro l
  induction l with
  | nil => intro acc x; simp
  | cons y ys ih =>
    intro acc x
    simp only [List.foldl_cons]
    by_cases hy : y ∈ acc
    · rw [if_pos hy, ih]
      constructor
      · rintro (h | h)
        · exact Or.inl h
        · exact Or.inr (List.mem_cons_of_mem _ h)
      · rintro (h | h)
        · exact Or.inl h
        · rcases List.mem_cons.mp h with rfl | h
          · exact Or.inl hy
          · exact Or.inr h
    · rw [if_neg hy, ih]
      simp only [List.mem_append, List.mem_singleton, List.mem_cons]
      tauto

theorem mem_setContents (l : List Nat) (x : Nat) :
    x ∈ setContents l ↔ x ∈ l := by
  rw [setContents, mem_setContents_aux]
  simp

theorem drain_mem (env : List DrainJob) (permJ : List Nat → List Nat) :
    ∀ (fuel : Nat) (q ex L : List Nat),
      drain env permJ fuel q ex = some L →
      (∀ x ∈ q, x ∈ L) ∧ (∀ x ∈ ex, x ∈ L) := by
  intro fuel
  induction fuel with
  | zero =>
    intro q ex L h
    cases q with
    | nil =>
      simp only [drain, Option.some.injEq] at h
      subst h
      exact ⟨by simp, fun x hx => List.mem_reverse.mpr hx⟩
    | cons j rest => simp [drain] at h
  | succ fuel ih =>
    intro q ex L h
    cases q with
    | nil =>
      simp only [drain, Option.some.injEq] at h
      subst h
      exact ⟨by simp, fun x hx => List.mem_reverse.mpr hx⟩
    | cons j rest =>
      simp only [drain] at h
      rcases ih _ _ _ h with ⟨hq, hex⟩
      refine ⟨?_, ?_⟩
      · intro x hx
        rcases List.mem_cons.mp hx with rfl | hx
        · exact hex x (List.mem_cons_self _ _)
        · exact hq x (List.mem_append.mpr (Or.inl hx))
      · intro x hx
        exact hex x (List.mem_cons_of_mem _ hx)

theorem drain_spawn_closed (env : List DrainJob) (permJ : List Nat → List Nat)
    (hperm : ∀ l, (permJ l).Perm l) :
    ∀ (fuel : Nat) (q ex L : List Nat),
      drain env permJ fuel q ex = some L →
      ∀ x ∈ L, x ∈ ex ∨ ∀ s ∈ spawnOf env x, s ∈ L := by
  intro fuel
  induction fuel with
  | zero =>
    intro q ex L h x hx
    cases q with
    | nil =>
      simp only [drain, Option.some.injEq] at h
      subst h
      exact Or.inl (List.mem_reverse.mp hx)
    | cons j rest => simp [drain] at h
  | succ fuel ih =>
    intro q ex L h x hx
    cases q with
    | nil =>
      simp only [drain, Option.some.injEq] at h
      subst h
      exact Or.inl (List.mem_reverse.mp hx)
    | cons j rest =>
      simp only [drain] at h
      rcases ih _ _ _ h x hx with hmem | hsp
      · rcases List.mem_cons.mp hmem with rfl | hmem
        · right
          intro s hs
          have hsq : s ∈ rest ++ permJ (setContents (spawnOf env x)) :=
            List.mem_append.mpr (Or.inr
              ((hperm _).mem_iff.mpr ((mem_setContents _ _).mpr hs)))
          exact (drain_mem env permJ fuel _ _ L h).1 s hsq
        · exact Or.inl hmem
      · exact Or.inr hsp

/-- Claim C2 counterexample: a job supplies same-procedure spawned jobs
`[2, 3]` through `append_jobs`, but `Job.execute` pushes them through the
Python set `jobs = set(...)` and hands `list(jobs)` to the queue; under the
set-iteration order that reverses them (a legal iteration order — Python 2
sets guarantee none), the queue receives `[3, 2]`, not the supplied order
`[2, 3]`. -/
theorem spawn_order_cex :
    (∀ l : List Nat, (List.reverse l).Perm l) ∧
    sameProcSpawn c2Spec = [2, 3] ∧
    queueBatches (executeJob c2Spec (ActionOutcome.ok PyVal.none) false
      PersistFailure.noFailure id List.reverse "").events = [[3, 2]] ∧
    [3, 2] ≠ ([2, 3] : List Nat) :=
  ⟨fun l => List.reverse_perm l, by decide, by decide, by decide⟩

/-- Claim C2 (corrected): on a successful execution the same-procedure
spawned jobs are handed to the worker's private queue as one atomic batch,
immediately after the commit of the current job and before its COMPLETE
status; the batch holds exactly the distinct spawned uuids but in an
arbitrary set-iteration order, not necessarily the `append_jobs` supply
order (`spawn_order_cex`); and the worker, which leaves a procedure only
when its queue is drained, executes every spawned job before any job of a
different procedure is taken. -/
theorem spawn_batch_order_amended :
    (∀ (spec : JobSpec) (v : PyVal) (rollbackFails : Bool)
        (permP permJ : List Nat → List Nat) (tb : String),
      ∃ pre, (executeJob spec (ActionOutcome.ok v) rollbackFails
          PersistFailure.noFailure permP permJ tb).events =
        pre ++
          [ExecEvent.queueSchedule (permJ (setContents (sameProcSpawn spec))),
           ExecEvent.statusAdd (successStatus spec.actionName),
           ExecEvent.markComplete, ExecEvent.addExecutedJob spec.uuid]) ∧
    (∀ (permJ : List Nat → List Nat), (∀ l, (permJ l).Perm l) →
      ∀ (l : List Nat) (x : Nat), x ∈ permJ (setContents l) ↔ x ∈ l) ∧
    (∀ (env : List DrainJob) (permJ : List Nat → List Nat) (fuel : Nat)
        (q L : List Nat), (∀ l, (permJ l).Perm l) →
      drain env permJ fuel q [] = some L →
      ∀ x ∈ L, ∀ s ∈ spawnOf env x, s ∈ L) := by
  refine ⟨?_, ?_, ?_⟩
  · intro spec v rollbackFails permP permJ tb
    refine ⟨(ExecEvent.statusAdd (processingStatus spec.actionName) ::
      (if spec.isRecoverable then [ExecEvent.ckptBegin spec.uuid] else []) ++
      [ExecEvent.persisterBegin, ExecEvent.actionCall spec.args spec.kwargs]) ++
      (ExecEvent.ckptRegister (spec.spawned.map SpawnedJob.uuid) true ::
        (if spec.isRecoverable then [ExecEvent.ckptFinish spec.uuid] else []) ++
        [ExecEvent.persisterCommit] ++
        (permP (partitionSpawned spec).1).map ExecEvent.schedulerEnqueue), ?_⟩
    cases hrec : spec.isRecoverable <;>
      simp [executeJob, tryBlockEvents, sameProcSpawn, partitionSpawned, hrec]
  · intro permJ hperm l x
    rw [List.Perm.mem_iff (hperm (setContents l)), mem_setContents]
  · intro env permJ fuel q L hperm h x hx s hs
    rcases drain_spawn_closed env permJ hperm fuel q [] L h x hx with hmem | hsp
    · simp at hmem
    · exact hsp s hs

/-- Witness for `spawn_batch_order_amended`: job 1 spawns jobs 2 and 3; the
drain executes them all before finishing the procedure. -/
theorem spawn_batch_order_amended_witness :
    (∃ pre, (executeJob c2Spec (ActionOutcome.ok PyVal.none) false
        PersistFailure.noFailure id List.reverse "t").events =
      pre ++
        [ExecEvent.queueSchedule (List.reverse (setContents (sameProcSpawn c2Spec))),
         ExecEvent.statusAdd (successStatus c2Spec.actionName),
         ExecEvent.markComplete, ExecEvent.addExecutedJob c2Spec.uuid]) ∧
    (∀ l : List Nat, (List.reverse l).Perm l) ∧
    drain drainEnvEx List.reverse 10 [1] [] = some [1, 3, 2] ∧
    (∀ x ∈ ([1, 3, 2] : List Nat), ∀ s ∈ spawnOf drainEnvEx x,
      s ∈ ([1, 3, 2] : List Nat)) :=
  ⟨spawn_batch_order_amended.1 c2Spec PyVal.none false id List.reverse "t",
   fun l => List.reverse_perm l, by decide,
   spawn_batch_order_amended.2.2 drainEnvEx List.reverse 10 [1] [1, 3, 2]
     (fun l => List.reverse_perm l) (by decide)⟩

theorem beginCount_execOfRun (pid : Nat) (r : JobRun) (u : Nat) :
    beginCount (execOfRun pid r).events u =
      if r.recoverable = true ∧ r.uuid = u then 1 else 0 := by
  cases ho : r.outcome <;> cases hf : r.fail <;> cases hrec : r.recoverable <;>
    simp [execOfRun, executeJob, specOfRun, tryBlockEvents, beginCount,
      partitionSpawned, setContents, hrec, ho, hf, List.countP_append,
      List.countP_cons, beq_iff_eq]

theorem finishCount_execOfRun (pid : Nat) (r : JobRun) (u : Nat) :
    finishCount (execOfRun pid r).events u =
      if r.recoverable = true ∧ finishes r = true ∧ r.uuid = u then 1 else 0 := by
  cases ho : r.outcome <;> cases hf : r.fail <;> cases hrec : r.recoverable <;>
    simp [execOfRun, executeJob, specOfRun, tryBlockEvents, finishes, finishCount,
      partitionSpawned, setContents, hrec, ho, hf, List.countP_append,
      List.countP_cons, beq_iff_eq]

theorem removeCount_execOfRun (pid : Nat) (r : JobRun) (u : Nat) :
    removeCount (execOfRun pid r).events u = 0 := by
  cases ho : r.outcome <;> cases hf : r.fail <;> cases hrec : r.recoverable <;>
    simp [execOfRun, executeJob, specOfRun, tryBlockEvents, removeCount,
      partitionSpawned, setContents, hrec, ho, hf, List.countP_append,
      List.countP_cons]

theorem countP_uuid_unique (p : JobRun → Bool) :
    ∀ (runs : List JobRun) (r : JobRun), (runs.map JobRun.uuid).Nodup →
      r ∈ runs →
      runs.countP (fun x => p x && (x.uuid == r.uuid)) =
        if p r = true then 1 else 0 := by
  intro runs
  induction runs with
  | nil => intro r _ hr; simp at hr
  | cons a rest ih =>
    intro r hnd hr
    simp only [List.map_cons, List.nodup_cons, List.mem_map] at hnd
    obtain ⟨hnotin, hnd'⟩ := hnd
    rw [List.countP_cons]
    rcases List.mem_cons.mp hr with rfl | hr
    · have hrest : rest.countP (fun x => p x && (x.uuid == r.uuid)) = 0 := by
        rw [List.countP_eq_zero]
        intro x hx
        simp only [Bool.and_eq_true, beq_iff_eq, not_and]
        intro _ hxe
        exact hnotin ⟨x, hx, hxe⟩
      rw [hrest]
      simp
    · have hane : a.uuid ≠ r.uuid := by
        intro hae
        exact hnotin ⟨r, hr, hae.symm⟩
      have hhead : (p a && (a.uuid == r.uuid)) = false := by
        simp [hane]
      rw [hhead]
      simp only [Bool.false_eq_true, if_false, Nat.add_zero]
      exact ih r hnd' hr

theorem add_executed_job_eq_of {p : Procedure} {j : JobRec}
    (hc : p.complete = false) (hs : memByUuid j p.scheduledJobs = true)
    (he : memByUuid j p.executedJobs = false) :
    add_executed_job p j =
      some ({ complete := (p.scheduledJobs.eraseP
                (fun k => k.uuid == j.uuid)).isEmpty
              result := if j.result == PyVal.none then p.result else j.result
              scheduledJobs := p.scheduledJobs.eraseP
                (fun k => k.uuid == j.uuid)
              executedJobs := p.executedJobs ++ [j]
              status := p.status ++ j.status },
            if (p.scheduledJobs.eraseP (fun k => k.uuid == j.uuid)).isEmpty
            then [j.uuid] else []) := by
  unfold add_executed_job
  simp [hc, hs, he]

theorem procRunAux_counts (pid u : Nat) :
    ∀ (runs : List JobRun) (p pF : Procedure) (tr : List ExecEvent),
      p.scheduledJobs = runs.map (recOfRun pid) →
      (∀ b ∈ p.executedJobs, ∀ x ∈ runs, b.uuid ≠ x.uuid) →
      (runs.map JobRun.uuid).Nodup →
      (runs ≠ [] → p.complete = false) →
      procRunAux pid p runs = some (pF, tr) →
      beginCount tr u = runs.countP (fun x => x.recoverable && (x.uuid == u)) ∧
      finishCount tr u =
        runs.countP (fun x => (x.recoverable && finishes x) && (x.uuid == u)) ∧
      removeCount tr u =
        (match runs.getLast? with
         | some rl => if rl.uuid = u then 1 else 0
         | none => 0) := by
  intro runs
  induction runs with
  | nil =>
    intro p pF tr _ _ _ _ h
    simp only [procRunAux, Option.some.injEq, Prod.mk.injEq] at h
    rcases h with ⟨-, rfl⟩
    simp [beginCount, finishCount, removeCount]
  | cons r rest ih =>
    intro p pF tr hsch hdis hnd hcomp h
    have hc : p.complete = false := hcomp (by simp)
    have hmemS : memByUuid (recOfRun pid r) p.scheduledJobs = true := by
      rw [hsch]
      simp [memByUuid]
    have hmemE : memByUuid (recOfRun pid r) p.executedJobs = false := by
      rw [memByUuid_false_iff]
      intro hin
      rcases List.mem_map.mp hin with ⟨b, hb, hbe⟩
      exact hdis b hb r (List.mem_cons_self _ _) hbe
    have herase : p.scheduledJobs.eraseP
        (fun k => k.uuid == (recOfRun pid r).uuid) = rest.map (recOfRun pid) := by
      rw [hsch, List.map_cons, List.eraseP_cons]
      simp
    simp only [procRunAux, add_executed_job_eq_of hc hmemS hmemE, herase] at h
    simp only [List.map_cons, List.nodup_cons, List.mem_map] at hnd
    obtain ⟨hnotin, hnd'⟩ := hnd
    cases hrest : procRunAux pid
        { complete := (rest.map (recOfRun pid)).isEmpty
          result := if (recOfRun pid r).result == PyVal.none then p.result
            else (recOfRun pid r).result
          scheduledJobs := rest.map (recOfRun pid)
          executedJobs := p.executedJobs ++ [recOfRun pid r]
          status := p.status ++ (recOfRun pid r).status } rest with
    | none => rw [hrest] at h; cases h
    | some pr =>
      rw [hrest] at h
      simp only [Option.some.injEq, Prod.mk.injEq] at h
      rcases h with ⟨-, htr⟩
      subst htr
      have hdis' : ∀ b ∈ p.executedJobs ++ [recOfRun pid r], ∀ x ∈ rest,
          b.uuid ≠ x.uuid := by
        intro b hb x hx
        rcases List.mem_append.mp hb with hb | hb
        · exact hdis b hb x (List.mem_cons_of_mem _ hx)
        · rw [List.mem_singleton] at hb
          subst hb
          intro hbe
          exact hnotin ⟨x, hx, by simpa [recOfRun] using hbe.symm⟩
      have hcomp' : rest ≠ [] →
          ((rest.map (recOfRun pid)).isEmpty : Bool) = false := by
        intro hne
        cases rest with
        | nil => exact absurd rfl hne
        | cons y ys => simp
      rcases ih _ pr.1 pr.2 rfl hdis' hnd' hcomp' hrest with ⟨ihb, ihf, ihr⟩
      have hru : (recOfRun pid r).uuid = r.uuid := rfl
      have hBbeg : beginCount ((if (rest.map (recOfRun pid)).isEmpty
          then [(recOfRun pid r).uuid] else []).map ExecEvent.ckptRemove) u = 0 := by
        cases (rest.map (recOfRun pid)).isEmpty <;> simp [beginCount]
      have hBfin : finishCount ((if (rest.map (recOfRun pid)).isEmpty
          then [(recOfRun pid r).uuid] else []).map ExecEvent.ckptRemove) u = 0 := by
        cases (rest.map (recOfRun pid)).isEmpty <;> simp [finishCount]
      refine ⟨?_, ?_, ?_⟩
      · rw [beginCount, List.countP_append, List.countP_append,
          ← beginCount, ← beginCount, ← beginCount, beginCount_execOfRun,
          hBbeg, ihb, List.countP_cons]
        by_cases hrec : r.recoverable = true <;> by_cases hu : r.uuid = u <;>
          simp [hrec, hu, Nat.add_comm]
      · rw [finishCount, List.countP_append, List.countP_append,
          ← finishCount, ← finishCount, ← finishCount, finishCount_execOfRun,
          hBfin, ihf, List.countP_cons]
        by_cases hrec : r.recoverable = true <;>
          by_cases hfin : finishes r = true <;> by_cases hu : r.uuid = u <;>
          simp [hrec, hfin, hu, Nat.add_comm]
      · rw [removeCount, List.countP_append, List.countP_append,
          ← removeCount, ← removeCount, ← removeCount, removeCount_execOfRun,
          ihr]
        cases rest with
        | nil =>
          simp only [List.map_nil, List.isEmpty_nil, if_true, hru]
          by_cases hu : r.uuid = u <;>
            simp [removeCount, List.countP_cons, hu]
        | cons y ys =>
          simp only [List.map_cons, List.isEmpty_cons, if_false, List.map_nil]
          simp [removeCount, List.getLast?_cons_cons]

/-- Claim C3 (corrected): in a completed procedure every recoverable job
has exactly one `begin`; it has exactly one `finish` when its action
returned and `Checkpoint.register` did not raise (in particular whenever it
committed); and a `remove` is issued only for the checkpoint of the final
executed job — one per procedure, not one per job — so an earlier committed
recoverable job keeps its `begin`/`finish` pair with no `remove`
(`checkpoint_bracketing_cex`).  A recoverable job whose action raised gets
no `finish`, leaving at most its `begin`. -/
theorem checkpoint_bracketing_amended (pid : Nat) (runs : List JobRun)
    (pF : Procedure) (tr : List ExecEvent)
    (hnd : (runs.map JobRun.uuid).Nodup)
    (h : procRun pid runs = some (pF, tr)) :
    ∀ r ∈ runs,
      beginCount tr r.uuid = (if r.recoverable = true then 1 else 0) ∧
      finishCount tr r.uuid =
        (if r.recoverable = true ∧ finishes r = true then 1 else 0) ∧
      removeCount tr r.uuid =
        (match runs.getLast? with
         | some rl => if rl.uuid = r.uuid then 1 else 0
         | none => 0) := by
  unfold procRun at h
  cases hs : scheduleAll Procedure.init (runs.map (recOfRun pid)) with
  | none => rw [hs] at h; cases h
  | some p =>
    rw [hs] at h
    rcases scheduleAll_fields _ _ _ hs with ⟨-, hsch, hexe, hcom⟩
    intro r hr
    have hcounts := procRunAux_counts pid r.uuid runs p pF tr
      (by rw [hsch]; simp [Procedure.init])
      (by rw [hexe]; intro b hb; simp [Procedure.init] at hb)
      hnd (fun _ => by rw [hcom]; rfl) h
    rcases hcounts with ⟨hb, hf2, hrm⟩
    refine ⟨?_, ?_, hrm⟩
    · rw [hb]
      have := countP_uuid_unique (fun x => x.recoverable) runs r hnd hr
      simpa using this
    · rw [hf2]
      have := countP_uuid_unique (fun x => x.recoverable && finishes x) runs r hnd hr
      rw [this]
      by_cases hrec : r.recoverable = true <;>
        by_cases hfin : finishes r = true <;> simp [hrec, hfin]

/-- Witness for `checkpoint_bracketing_amended` at the two-job procedure
`c3Runs`: job 1 gets one begin and one finish and zero removes; job 2 (the
final job) gets one of each. -/
theorem checkpoint_bracketing_amended_witness :
    (c3Runs.map JobRun.uuid).Nodup ∧
    procRun 10 c3Runs = some c3Out ∧
    (∀ r ∈ c3Runs,
      beginCount c3Out.2 r.uuid = (if r.recoverable = true then 1 else 0) ∧
      finishCount c3Out.2 r.uuid =
        (if r.recoverable = true ∧ finishes r = true then 1 else 0) ∧
      removeCount c3Out.2 r.uuid =
        (match c3Runs.getLast? with
         | some rl => if rl.uuid = r.uuid then 1 else 0
         | none => 0)) :=
  ⟨by decide, by decide,
   checkpoint_bracketing_amended 10 c3Runs c3Out.1 c3Out.2 (by decide)
     (by decide)⟩

/-- Claim C3 counterexample: both jobs of `c3Runs` are recoverable and
commit, yet the trace holds one begin, one finish and zero removes for
job 1 — not the claimed begin/finish/remove triple; only job 2's checkpoint
(the final executed job's) is removed. -/
theorem checkpoint_bracketing_cex :
    committed { uuid := 1, recoverable := true
                outcome := ActionOutcome.ok (PyVal.int 0)
                fail := PersistFailure.noFailure } = true ∧
    (procRun 10 c3Runs).map
        (fun pr => (beginCount pr.2 1, finishCount pr.2 1, removeCount pr.2 1,
                    removeCount pr.2 2)) = some (1, 1, 0, 1) ∧
    (0 : Nat) ≠ 1 :=
  ⟨by decide, by decide, by decide⟩

/-- Claim C7 (confirmed): the submission API raises exactly the prescribed
errors: any submission or wait while the worker thread is not alive raises
`ExecutorError("Executor is not running.")`; `within_procedure = True` from
a non-worker thread and a UUID `within_procedure` from the worker thread
raise `ProgrammingError`; `wait_for_procedure` from the worker thread
raises `ProgrammingError`; every other combination succeeds. -/
theorem submission_error_contract (isCurrentThread : Bool)
    (currentProcUuid u : Nat) (fresh : Nat → Nat) (within : WithinProcedure)
    (nactions : Nat) :
    (create_procedures false isCurrentThread currentProcUuid fresh within
        nactions =
      Except.error (FabricError.executorError "Executor is not running.")) ∧
    (wait_for_procedure false isCurrentThread =
      Except.error (FabricError.executorError "Executor is not running.")) ∧
    (create_procedures true false currentProcUuid fresh
        (WithinProcedure.flag true) nactions =
      Except.error (FabricError.programmingError
        "One can only create a job within the context of the current procedure from a job that belongs to this procedure.")) ∧
    (create_procedures true true currentProcUuid fresh
        (WithinProcedure.procUuid u) nactions =
      Except.error (FabricError.programmingError
        "One can only create a job within the context of an specific procedure while recovering.")) ∧
    (wait_for_procedure true true =
      Except.error (FabricError.programmingError
        "One cannot wait for the execution of a procedure from a job.")) ∧
    (create_procedures true isCurrentThread currentProcUuid fresh
        (WithinProcedure.flag false) nactions =
      Except.ok ((List.range nactions).map fresh)) ∧
    (create_procedures true true currentProcUuid fresh
        (WithinProcedure.flag true) nactions =
      Except.ok (List.replicate nactions currentProcUuid)) ∧
    (create_procedures true false currentProcUuid fresh
        (WithinProcedure.procUuid u) nactions =
      Except.ok (List.replicate nactions u)) ∧
    (wait_for_procedure true false = Except.ok ()) := by
  cases within <;>
    simp [create_procedures, wait_for_procedure]

/-- Claim C8 (confirmed): `get_scheduled_jobs` returns a freshly allocated
list — a snapshot of the scheduled-jobs set — at an address distinct from
the procedure's own set, whose contents equal the set's contents at call
time; mutating the returned list never changes the procedure's set. -/
theorem scheduled_jobs_snapshot (h : Heap) (p : ProcedureRef)
    (hvalid : p.scheduledAddr < h.cells.length) :
    (get_scheduled_jobs h p).2 ≠ p.scheduledAddr ∧
    Heap.read (get_scheduled_jobs h p).1 (get_scheduled_jobs h p).2 =
      Heap.read h p.scheduledAddr ∧
    Heap.read (get_scheduled_jobs h p).1 p.scheduledAddr =
      Heap.read h p.scheduledAddr ∧
    (∀ v, Heap.read (Heap.write (get_scheduled_jobs h p).1
        (get_scheduled_jobs h p).2 v) p.scheduledAddr =
      Heap.read h p.scheduledAddr) := by
  refine ⟨Nat.ne_of_gt hvalid, ?_, ?_, ?_⟩
  · show (h.cells ++ [Heap.read h p.scheduledAddr]).getD h.cells.length [] =
      Heap.read h p.scheduledAddr
    rw [List.getD_eq_getElem?_getD, List.getElem?_append_right (Nat.le_refl _)]
    simp
  · show (h.cells ++ [Heap.read h p.scheduledAddr]).getD p.scheduledAddr [] =
      Heap.read h p.scheduledAddr
    rw [List.getD_eq_getElem?_getD, List.getElem?_append_left hvalid]
    rw [Heap.read, List.getD_eq_getElem?_getD]
  · intro v
    show ((h.cells ++ [Heap.read h p.scheduledAddr]).set h.cells.length
        v).getD p.scheduledAddr [] = Heap.read h p.scheduledAddr
    rw [List.getD_eq_getElem?_getD,
      List.getElem?_set_ne (Nat.ne_of_gt hvalid),
      List.getElem?_append_left hvalid]
    rw [Heap.read, List.getD_eq_getElem?_getD]

/-- Witness for `scheduled_jobs_snapshot` on a one-cell heap. -/
theorem scheduled_jobs_snapshot_witness :
    (0 : Nat) < (Heap.mk [[4, 5]]).cells.length ∧
    (get_scheduled_jobs (Heap.mk [[4, 5]]) (ProcedureRef.mk 0)).2 ≠ 0 ∧
    (∀ v, Heap.read (Heap.write
        (get_scheduled_jobs (Heap.mk [[4, 5]]) (ProcedureRef.mk 0)).1
        (get_scheduled_jobs (Heap.mk [[4, 5]]) (ProcedureRef.mk 0)).2 v) 0 =
      Heap.read (Heap.mk [[4, 5]]) 0) :=
  ⟨by decide,
   (scheduled_jobs_snapshot (Heap.mk [[4, 5]]) (ProcedureRef.mk 0)
      (by decide)).1,
   (scheduled_jobs_snapshot (Heap.mk [[4, 5]]) (ProcedureRef.mk 0)
      (by decide)).2.2.2⟩

/-- Claim C9 (confirmed): `shutdown()` on a never-started executor or one
whose worker thread is not alive returns without error, enqueues no `None`
sentinel, joins nothing, leaves the thread reference `None`, and a
subsequent `start()` succeeds. -/
theorem shutdown_not_running_noop (s : ExecutorState)
    (hdead : s.thread = none ∨ s.thread = some { alive := false }) :
    shutdown s = { state := { thread := none }, sentinelEnqueued := false,
                   joined := false } ∧
    start (shutdown s).state = Except.ok { thread := some { alive := true } } := by
  rcases hdead with hd | hd <;> simp [shutdown, start, hd]

/-- Witness for `shutdown_not_running_noop` on a fresh executor. -/
theorem shutdown_not_running_noop_witness :
    (({ thread := none } : ExecutorState).thread = none ∨
      ({ thread := none } : ExecutorState).thread = some { alive := false }) ∧
    shutdown { thread := none } =
      { state := { thread := none }, sentinelEnqueued := false,
        joined := false } ∧
    start (shutdown { thread := none }).state =
      Except.ok { thread := some { alive := true } } :=
  ⟨Or.inl rfl,
   (shutdown_not_running_noop { thread := none } (Or.inl rfl)).1,
   (shutdown_not_running_noop { thread := none } (Or.inl rfl)).2⟩

end Fabric
